import Mathlib

/-!
The status-aggregation core of job-exporter.

A shallow embedding of `src/mmerrill.io/job-exporter/job.go`:

* `v1.Job` (from client-go) is modelled by the fields the exporter reads;
  a `*metav1.Time` is an `Option Int` holding the value its `Unix()` returns,
  `none` being the nil pointer; `Annotations` is `none` for a nil map.
* the package-level `jobMap` (`map[string]jobGauge`) is a finite map and is
  passed explicitly through `collectJobs`.
* `json.Unmarshal` (standard library) is a parameter `unmarshal`.
* `glog.Fatalf` and a nil-pointer dereference end the run: `collectJobs`
  returns in `Except Abort`.
-/

namespace JobExporter

/-- The nested `Reference` struct of `jobAnnotation`. -/
structure Reference where
  Kind : String
  Namespace : String
  Name : String
  UID : String
  APIVersion : String
  ResourceVersion : String
  deriving DecidableEq, Repr

/-- The decoded payload of the `kubernetes.io/created-by` annotation
(`type jobAnnotation struct`). -/
structure jobAnnotation where
  Kind : String
  APIVersion : String
  Reference : Reference
  deriving DecidableEq, Repr

/-- The record held per key (`type jobGauge struct`). -/
structure jobGauge where
  name : String
  status : Int
  startTime : Int
  completionTime : Int
  namespace_ : String
  deriving DecidableEq, Repr

/-- The fields of `v1.JobStatus` the exporter reads. `Active` and `Failed` are
`int32` counters; the two times are `*metav1.Time`, given by their `Unix()`
value, `none` for nil. -/
structure JobStatus where
  Active : Int
  Failed : Int
  StartTime : Option Int
  CompletionTime : Option Int
  deriving DecidableEq, Repr

/-- The fields of `v1.Job` the exporter reads. `Annotations` is a Go
`map[string]string`: `none` is the nil map, `some l` a map with the entries
of `l` (possibly none at all). -/
structure Job where
  Name : String
  Namespace : String
  Annotations : Option (List (String × String))
  Status : JobStatus
  deriving DecidableEq, Repr

/-- The package-level `jobMap = make(map[string]jobGauge)`. -/
abbrev Store := Finmap (fun _ : String => jobGauge)

/-- The two ways a call can end without returning: `glog.Fatalf` (the process
exits) and the runtime panic of a nil-pointer dereference. -/
inductive Abort where
  | fatal
  | nilDereference
  deriving DecidableEq, Repr

/-- Go map indexing `m[k]` on a `map[string]string`: the zero value `""` when
the key is missing (also on a nil map). -/
def index (m : Option (List (String × String))) (k : String) : String :=
  match m with
  | none => ""
  | some l => (l.lookup k).getD ""

/-- Source `t.Unix()` on a `*metav1.Time`: the method is promoted from the embedded
`time.Time`, so a nil receiver is dereferenced and panics. -/
def unix (t : Option Int) : Except Abort Int :=
  match t with
  | none => .error .nilDereference
  | some s => .ok s

/-- Source: `func (jc *jobsCollector) findStatus(job *v1.Job) int64`. -/
def findStatus (job : Job) : Int :=
  if job.Status.Active > 0 then 2
  else if job.Status.Failed > 0 then 1
  else 0

/-- Source: `func (jb *jobsCollector) findMapKey(job *v1.Job) string`. -/
def findMapKey (job : Job) : String :=
  match job.Annotations with
  | none => ""
  | some _ => index job.Annotations "name" ++ job.Namespace

/-- Source: `func (jc *jobsCollector) decodeJSON(bytes []byte) (*jobAnnotation, error)`;
an unmarshalling error is passed to `glog.Fatalf`. -/
def decodeJSON (unmarshal : String → Option jobAnnotation) (bytes : String) :
    Except Abort jobAnnotation :=
  match unmarshal bytes with
  | none => .error .fatal
  | some a => .ok a

/-- Source: `func (jc *jobsCollector) collectJobs(j v1.Job)`, with `jobMap` passed in
and returned. The map is written only by the last statement of a branch, so an
aborted call has not touched it. -/
def collectJobs (unmarshal : String → Option jobAnnotation) (jobMap : Store) (j : Job) :
    Except Abort Store :=
  match j.Annotations, j.Status.CompletionTime with
  | none, _ => .ok jobMap
  | some _, none => .ok jobMap
  | some _, some completion =>
    let status := findStatus j
    let jobMapKey := findMapKey j
    if jobMapKey = "" then .ok jobMap
    else
      match jobMap.lookup jobMapKey with
      | none =>
        match decodeJSON unmarshal (index j.Annotations "kubernetes.io/created-by") with
        | .error e => .error e
        | .ok a =>
          match unix j.Status.StartTime with
          | .error e => .error e
          | .ok start =>
            .ok (jobMap.insert jobMapKey
              { name := a.Reference.Name, status := status, startTime := start,
                completionTime := completion, namespace_ := j.Namespace })
      | some g =>
        if g.completionTime ≤ completion then
          match unix j.Status.StartTime with
          | .error e => .error e
          | .ok start =>
            .ok (jobMap.insert jobMapKey
              { name := g.name, status := status, startTime := start,
                completionTime := completion, namespace_ := g.namespace_ })
        else .ok jobMap

/-- The refresh loop of `Collect`: `for _, j := range jls { jc.collectJobs(j) }`.
An abort in one call ends the loop. -/
def refresh (unmarshal : String → Option jobAnnotation) (jobMap : Store) (jls : List Job) :
    Except Abort Store :=
  match jls with
  | [] => .ok jobMap
  | j :: rest =>
    match collectJobs unmarshal jobMap j with
    | .error e => .error e
    | .ok jobMap' => refresh unmarshal jobMap' rest

/-- A stand-in for `json.Unmarshal` into a `jobAnnotation`. It agrees with the
library on the two inputs the examples feed it: the empty input is an error
(`unexpected end of JSON input`), and the document
`{"reference":{"name":"job1"}}` decodes to a value whose `Reference.Name` is
`job1`, all other fields being zero. Any other input is answered `none`. -/
def unmarshalSample (bytes : String) : Option jobAnnotation :=
  if bytes = "\x7b\"reference\":\x7b\"name\":\"job1\"\x7d\x7d" then
    some { Kind := "", APIVersion := "",
           Reference := { Kind := "", Namespace := "", Name := "job1", UID := "",
                          APIVersion := "", ResourceVersion := "" } }
  else none

/-- The payload `{"reference":{"name":"job1"}}`. -/
def createdByJob1 : String := "\x7b\"reference\":\x7b\"name\":\"job1\"\x7d\x7d"

/-- A finished job of namespace `a` carrying both annotations; its key is
`job1a`. -/
def sampleJob (failed start completion : Int) : Job :=
  { Name := "job1-x", Namespace := "a",
    Annotations := some [("name", "job1"), ("kubernetes.io/created-by", createdByJob1)],
    Status := { Active := 0, Failed := failed, StartTime := some start,
                CompletionTime := some completion } }

/-- The record `collectJobs` stores for `sampleJob`. -/
def sampleGauge (status start completion : Int) : jobGauge :=
  { name := "job1", status := status, startTime := start, completionTime := completion,
    namespace_ := "a" }

/-- A store holding one record, under the key `job1a`. -/
def sampleStore (status start completion : Int) : Store :=
  Finmap.insert "job1a" (sampleGauge status start completion) ∅

/-- A store holding one record under the key `a`: what `ownerOnlyJob` leaves in
an empty store. -/
def storeA : Store :=
  Finmap.insert "a"
    { name := "job1", status := 0, startTime := 5, completionTime := 10, namespace_ := "a" } ∅

/-- A finished job of namespace `a` that carries the created-by annotation and
no `name` annotation. -/
def ownerOnlyJob : Job :=
  { Name := "job1-x", Namespace := "a",
    Annotations := some [("kubernetes.io/created-by", createdByJob1)],
    Status := { Active := 0, Failed := 0, StartTime := some 5, CompletionTime := some 10 } }

/-- A finished, failed job of namespace `a` whose annotation map is allocated
and holds no entry. -/
def emptyAnnotationsJob : Job :=
  { Name := "job2-x", Namespace := "a", Annotations := some [],
    Status := { Active := 0, Failed := 1, StartTime := some 50, CompletionTime := some 100 } }

/-- A finished, failed job of namespace `a` with one annotation that is
neither `name` nor created-by. -/
def noIdentityJob : Job :=
  { Name := "job3-x", Namespace := "a", Annotations := some [("team", "batch")],
    Status := { Active := 0, Failed := 1, StartTime := some 70, CompletionTime := some 300 } }

/-- A job that is still running: one active pod, no completion time. -/
def runningJob : Job :=
  { Name := "job1-x", Namespace := "a", Annotations := some [("name", "job1")],
    Status := { Active := 1, Failed := 0, StartTime := some 5, CompletionTime := none } }

/-- A job named `job1` in namespace `0a`. -/
def jobInNamespace0a : Job :=
  { Name := "x", Namespace := "0a", Annotations := some [("name", "job1")],
    Status := { Active := 0, Failed := 0, StartTime := some 1, CompletionTime := some 2 } }

/-- A job named `job10` in namespace `a`. -/
def job10InNamespaceA : Job :=
  { Name := "y", Namespace := "a", Annotations := some [("name", "job10")],
    Status := { Active := 0, Failed := 0, StartTime := some 1, CompletionTime := some 2 } }

/-! ### Rendering (`Collect`, lines 111-131) -/

/-- The fields of a `prometheus.Desc` given to `prometheus.NewDesc`. -/
structure Desc where
  fqName : String
  help : String
  variableLabels : List String
  deriving DecidableEq, Repr

/-- A constant gauge as built by `prometheus.MustNewConstMetric(desc,
prometheus.GaugeValue, v, lv...)`. The value `float64(n)` of an `int64` `n` is
represented by `n`. -/
structure Metric where
  desc : Desc
  value : Int
  labelValues : List String
  deriving DecidableEq, Repr

/-- The descriptor `descJobStatus` of `src/mmerrill.io/job-exporter/job.go`. -/
def descJobStatus : Desc :=
  { fqName := "kube_job_status", help := "The last run status of a job",
    variableLabels := ["namespace", "name"] }

/-- The descriptor `descJobStartTime` of `src/mmerrill.io/job-exporter/job.go`. -/
def descJobStartTime : Desc :=
  { fqName := "kube_job_start_time", help := "The start time for a job",
    variableLabels := ["namespace", "name"] }

/-- The descriptor `descJobCompletionTime` of
`src/mmerrill.io/job-exporter/job.go`. -/
def descJobCompletionTime : Desc :=
  { fqName := "kube_job_completion_time", help := "The completion time for a job",
    variableLabels := ["namespace", "name"] }

/-- The closure `addGauge` of `Collect`: prepends the record's namespace and
name to the label values and sends the gauge on `ch`, here the list of metrics
sent so far. Every call passes no further label, so the two values match the
two labels of the descriptor and `MustNewConstMetric` does not panic. -/
def addGauge (ch : List Metric) (desc : Desc) (v : Int) (g : jobGauge) (lv : List String) :
    List Metric :=
  ch ++ [{ desc := desc, value := v, labelValues := [g.namespace_, g.name] ++ lv }]

/-- The loop `for _, jobGauge := range jobMap { ... }` of `Collect`, with the
map and the channel passed through. Go leaves the iteration order of a map
unspecified, so the order in which the runtime hands out the entries is the
argument `order`. -/
def render (jobMap : Store) (order : List (Sigma fun _ : String => jobGauge))
    (ch : List Metric) : Store × List Metric :=
  order.foldl
    (fun st e =>
      (st.1,
        addGauge
          (addGauge (addGauge st.2 descJobStatus e.2.status e.2 [])
            descJobStartTime e.2.startTime e.2 [])
          descJobCompletionTime e.2.completionTime e.2 []))
    (jobMap, ch)

/-- Source: `func (jc *jobsCollector) Collect(ch chan<- prometheus.Metric)`. The
result of `jc.store.List()` is the argument `list`; `range` is the order in
which the runtime enumerates a map. Returned are the map and the metrics sent. -/
def Collect (unmarshal : String → Option jobAnnotation)
    (range : Store → List (Sigma fun _ : String => jobGauge)) (jobMap : Store)
    (list : Except String (List Job)) : Except Abort (Store × List Metric) :=
  match list with
  | .error _ => .ok (jobMap, [])
  | .ok jls =>
    match refresh unmarshal jobMap jls with
    | .error e => .error e
    | .ok jobMap' => .ok (render jobMap' (range jobMap') [])

/-! ### The exporter of `src/job.go` -/

namespace Direct

/-- The descriptor `descJobStatus` of `src/job.go`. -/
def descJobStatus : Desc :=
  { fqName := "kube_job_status", help := "The last run status of a job",
    variableLabels := ["namespace", "name"] }

/-- The descriptor `descJobStartTime` of `src/job.go`. -/
def descJobStartTime : Desc :=
  { fqName := "kube_job_status_time", help := "The start time for a job",
    variableLabels := ["namespace", "name"] }

/-- The descriptor `descJobCompletionTime` of `src/job.go`. -/
def descJobCompletionTime : Desc :=
  { fqName := "kube_job_completion_time", help := "The completion time for a job",
    variableLabels := ["namespace", "name"] }

/-- The closure `addGauge` of `collectJobs` in `src/job.go`: the labels are the
job's namespace and name. -/
def addGauge (j : Job) (ch : List Metric) (desc : Desc) (v : Int) (lv : List String) :
    List Metric :=
  ch ++ [{ desc := desc, value := v, labelValues := [j.Namespace, j.Name] ++ lv }]

/-- Source: `func (jc *jobsCollector) collectJobs(ch chan<- prometheus.Metric, j v1.Job)`
of `src/job.go`. Returned are the metrics sent so far and, when a nil time
was dereferenced, the panic that ended the call. -/
def collectJobs (ch : List Metric) (j : Job) : List Metric × Option Abort :=
  let ch1 :=
    if j.Status.Active > 0 then addGauge j ch descJobStatus 2 []
    else if j.Status.Failed > 0 then addGauge j ch descJobStatus 0 []
    else addGauge j ch descJobStatus 1 []
  match unix j.Status.StartTime with
  | .error e => (ch1, some e)
  | .ok start =>
    let ch2 := addGauge j ch1 descJobStartTime start []
    match unix j.Status.CompletionTime with
    | .error e => (ch2, some e)
    | .ok completion => (addGauge j ch2 descJobCompletionTime completion [], none)

/-- The loop `for _, j := range jls { jc.collectJobs(ch, j) }` of `src/job.go`. -/
def collectAll (ch : List Metric) (jls : List Job) : List Metric × Option Abort :=
  match jls with
  | [] => (ch, none)
  | j :: rest =>
    match collectJobs ch j with
    | (ch', some e) => (ch', some e)
    | (ch', none) => collectAll ch' rest

/-- Source: `func (jc *jobsCollector) Collect(ch chan<- prometheus.Metric)` of
`src/job.go`, the result of `jc.store.List()` being the argument `list`. -/
def Collect (list : Except String (List Job)) : List Metric × Option Abort :=
  match list with
  | .error _ => ([], none)
  | .ok jls => collectAll [] jls

end Direct

/-! ### More sample data -/

/-- A finished job of namespace `a` whose created-by payload names the owner
`job1` and whose `name` annotation is the argument. -/
def ownedJob (nameValue : String) : Job :=
  { Name := "job1-x", Namespace := "a",
    Annotations := some [("name", nameValue), ("kubernetes.io/created-by", createdByJob1)],
    Status := { Active := 0, Failed := 0, StartTime := some 5, CompletionTime := some 10 } }

/-- A finished job with a `name` annotation and no created-by annotation. -/
def jobWithoutCreatedBy : Job :=
  { Name := "job1-x", Namespace := "a", Annotations := some [("name", "job1")],
    Status := { Active := 0, Failed := 0, StartTime := some 5, CompletionTime := some 10 } }

/-- A finished job with both annotations and a nil `StartTime`. -/
def jobWithoutStartTime : Job :=
  { Name := "job1-x", Namespace := "a",
    Annotations := some [("name", "job1"), ("kubernetes.io/created-by", createdByJob1)],
    Status := { Active := 0, Failed := 0, StartTime := none, CompletionTime := some 200 } }

/-- A store with two records, under the keys `job1a` and `a`. -/
def twoRecordStore : Store :=
  Finmap.insert "job1a" (sampleGauge 0 10 100) storeA

/-- The entry of `twoRecordStore` under `job1a`. -/
def entryJob1a : Sigma fun _ : String => jobGauge := ⟨"job1a", sampleGauge 0 10 100⟩

/-- The entry of `twoRecordStore` under `a`. -/
def entryA : Sigma fun _ : String => jobGauge :=
  ⟨"a", { name := "job1", status := 0, startTime := 5, completionTime := 10,
          namespace_ := "a" }⟩

/-! ## C1 -/

/-- C1: `findStatus` returns 2 (Running) whenever the active count is positive,
whatever the failed count; otherwise 1 (Failed) when the failed count is
positive; otherwise 0 (Succeeded). -/
theorem findStatus_precedence (job : Job) :
    (0 < job.Status.Active → findStatus job = 2) ∧
    (¬ 0 < job.Status.Active → 0 < job.Status.Failed → findStatus job = 1) ∧
    (¬ 0 < job.Status.Active → ¬ 0 < job.Status.Failed → findStatus job = 0) := by
  unfold findStatus
  refine ⟨fun h => ?_, fun h1 h2 => ?_, fun h1 h2 => ?_⟩
  · simp [h]
  · simp [h1, h2]
  · simp [h1, h2]

/-- C1 at a job that is both active and failed: Running wins. -/
theorem findStatus_precedence_witness :
    findStatus { Name := "j", Namespace := "a", Annotations := none,
                 Status := { Active := 1, Failed := 3, StartTime := none,
                             CompletionTime := none } } = 2 :=
  (findStatus_precedence _).1 (by decide)

/-! ## Shape of one call -/

/-- A snapshot the filter or the empty-key test turns away is skipped. -/
theorem collectJobs_skip (u : String → Option jobAnnotation) (m : Store) (j : Job)
    (h : j.Annotations = none ∨ j.Status.CompletionTime = none ∨ findMapKey j = "") :
    collectJobs u m j = .ok m := by
  unfold collectJobs
  split
  · rfl
  · rfl
  · rename_i l c hl hc
    rcases h with h | h | h
    · simp [hl] at h
    · simp [hc] at h
    · simp [h]

/-- A snapshot older than the stored record is dropped, start time or not. -/
theorem collectJobs_stale (u : String → Option jobAnnotation) (m : Store) (j : Job)
    (l : List (String × String)) (c : Int) (g : jobGauge)
    (hl : j.Annotations = some l) (hc : j.Status.CompletionTime = some c)
    (hg : m.lookup (findMapKey j) = some g) (hlt : c < g.completionTime) :
    collectJobs u m j = .ok m := by
  unfold collectJobs
  rw [hl, hc]
  simp only [hg]
  split
  · rfl
  · rw [if_neg (not_le.mpr hlt)]

/-- The update branch. -/
theorem collectJobs_update (u : String → Option jobAnnotation) (m : Store) (j : Job)
    (l : List (String × String)) (c st : Int) (g : jobGauge)
    (hl : j.Annotations = some l) (hc : j.Status.CompletionTime = some c)
    (hs : j.Status.StartTime = some st) (hk : findMapKey j ≠ "")
    (hg : m.lookup (findMapKey j) = some g) (hle : g.completionTime ≤ c) :
    collectJobs u m j = .ok (m.insert (findMapKey j)
      { name := g.name, status := findStatus j, startTime := st,
        completionTime := c, namespace_ := g.namespace_ }) := by
  unfold collectJobs
  rw [hl, hc]
  simp only [hg, hs, unix, if_neg hk, if_pos hle]

/-- The insert branch. -/
theorem collectJobs_insert (u : String → Option jobAnnotation) (m : Store) (j : Job)
    (l : List (String × String)) (c st : Int) (a : jobAnnotation)
    (hl : j.Annotations = some l) (hc : j.Status.CompletionTime = some c)
    (hs : j.Status.StartTime = some st) (hk : findMapKey j ≠ "")
    (hg : m.lookup (findMapKey j) = none)
    (ha : u (index j.Annotations "kubernetes.io/created-by") = some a) :
    collectJobs u m j = .ok (m.insert (findMapKey j)
      { name := a.Reference.Name, status := findStatus j, startTime := st,
        completionTime := c, namespace_ := j.Namespace }) := by
  unfold collectJobs
  rw [hl, hc]
  rw [hl] at ha
  simp only [hg, hs, unix, decodeJSON, ha, if_neg hk]

/-- How a call that returns has run: skipped, stale, or accepted. -/
theorem collectJobs_ok_cases {u : String → Option jobAnnotation} {m m' : Store} {j : Job}
    (h : collectJobs u m j = .ok m') :
    (m' = m ∧ (j.Annotations = none ∨ j.Status.CompletionTime = none ∨ findMapKey j = "")) ∨
    (m' = m ∧ ∃ l c g, j.Annotations = some l ∧ j.Status.CompletionTime = some c ∧
        findMapKey j ≠ "" ∧ m.lookup (findMapKey j) = some g ∧ c < g.completionTime) ∨
    (∃ l c st g', j.Annotations = some l ∧ j.Status.CompletionTime = some c ∧
        j.Status.StartTime = some st ∧ findMapKey j ≠ "" ∧
        m' = m.insert (findMapKey j) g' ∧
        g'.completionTime = c ∧ g'.status = findStatus j ∧ g'.startTime = st ∧
        (∀ g, m.lookup (findMapKey j) = some g →
          g.completionTime ≤ c ∧ g'.name = g.name ∧ g'.namespace_ = g.namespace_) ∧
        (m.lookup (findMapKey j) = none →
          ∃ a, u (index j.Annotations "kubernetes.io/created-by") = some a ∧
            g'.name = a.Reference.Name ∧ g'.namespace_ = j.Namespace)) := by
  cases hl : j.Annotations with
  | none =>
    rw [collectJobs_skip u m j (Or.inl hl)] at h
    exact Or.inl ⟨(Except.ok.inj h).symm, Or.inl rfl⟩
  | some l =>
    cases hc : j.Status.CompletionTime with
    | none =>
      rw [collectJobs_skip u m j (Or.inr (Or.inl hc))] at h
      exact Or.inl ⟨(Except.ok.inj h).symm, Or.inr (Or.inl rfl)⟩
    | some c =>
      by_cases hk : findMapKey j = ""
      · rw [collectJobs_skip u m j (Or.inr (Or.inr hk))] at h
        exact Or.inl ⟨(Except.ok.inj h).symm, Or.inr (Or.inr hk)⟩
      · cases hs : j.Status.StartTime with
        | none =>
          cases hg : m.lookup (findMapKey j) with
          | none =>
            unfold collectJobs at h
            rw [hl, hc] at h
            simp only [hg, hs, unix, if_neg hk] at h
            split at h <;> simp at h
          | some g =>
            by_cases hle : g.completionTime ≤ c
            · unfold collectJobs at h
              rw [hl, hc] at h
              simp [hg, hs, unix, if_neg hk, if_pos hle] at h
            · rw [collectJobs_stale u m j l c g hl hc hg (not_le.mp hle)] at h
              exact Or.inr (Or.inl ⟨(Except.ok.inj h).symm, l, c, g, rfl, rfl, hk, rfl,
                not_le.mp hle⟩)
        | some st =>
          cases hg : m.lookup (findMapKey j) with
          | none =>
            cases ha : u (index j.Annotations "kubernetes.io/created-by") with
            | none =>
              unfold collectJobs at h
              rw [hl, hc] at h
              rw [hl] at ha
              simp [hg, decodeJSON, ha, if_neg hk] at h
            | some a =>
              rw [collectJobs_insert u m j l c st a hl hc hs hk hg ha] at h
              refine Or.inr (Or.inr ⟨l, c, st, _, rfl, rfl, rfl, hk, (Except.ok.inj h).symm,
                rfl, rfl, rfl, ?_, ?_⟩)
              · intro g hg'
                simp at hg'
              · intro _
                exact ⟨a, by rw [← hl]; exact ha, rfl, rfl⟩
          | some g =>
            by_cases hle : g.completionTime ≤ c
            · rw [collectJobs_update u m j l c st g hl hc hs hk hg hle] at h
              refine Or.inr (Or.inr ⟨l, c, st, _, rfl, rfl, rfl, hk, (Except.ok.inj h).symm,
                rfl, rfl, rfl, ?_, ?_⟩)
              · intro g0 hg0
                cases (Option.some.inj hg0)
                exact ⟨hle, rfl, rfl⟩
              · intro hn
                simp at hn
            · rw [collectJobs_stale u m j l c g hl hc hg (not_le.mp hle)] at h
              exact Or.inr (Or.inl ⟨(Except.ok.inj h).symm, l, c, g, rfl, rfl, hk, rfl,
                not_le.mp hle⟩)

/-- One call keeps every present key present, never lowers its completion
time, and keeps its name and namespace. -/
theorem collectJobs_lookup_mono {u : String → Option jobAnnotation} {m m' : Store} {j : Job}
    (h : collectJobs u m j = .ok m') {k : String} {g : jobGauge} (hk : m.lookup k = some g) :
    ∃ g', m'.lookup k = some g' ∧ g.completionTime ≤ g'.completionTime ∧
      g'.name = g.name ∧ g'.namespace_ = g.namespace_ := by
  rcases collectJobs_ok_cases h with ⟨rfl, _⟩ | ⟨rfl, _⟩ | ⟨l, c, st, g', _, _, _, _, rfl, hc, _, _, hold, _⟩
  · exact ⟨g, hk, le_refl _, rfl, rfl⟩
  · exact ⟨g, hk, le_refl _, rfl, rfl⟩
  · by_cases hkk : k = findMapKey j
    · subst hkk
      obtain ⟨h1, h2, h3⟩ := hold g hk
      exact ⟨g', Finmap.lookup_insert _, by rw [hc]; exact h1, h2, h3⟩
    · exact ⟨g, by rw [Finmap.lookup_insert_of_ne _ hkk]; exact hk, le_refl _, rfl, rfl⟩

/-- Unfolding of the loop at a non-empty list. -/
theorem refresh_cons_ok {u : String → Option jobAnnotation} {m m'' : Store} {j : Job}
    {rest : List Job} :
    refresh u m (j :: rest) = .ok m'' ↔
      ∃ m', collectJobs u m j = .ok m' ∧ refresh u m' rest = .ok m'' := by
  constructor
  · intro h
    unfold refresh at h
    cases hc : collectJobs u m j with
    | error e => rw [hc] at h; simp at h
    | ok m' => rw [hc] at h; exact ⟨m', rfl, h⟩
  · rintro ⟨m', h1, h2⟩
    unfold refresh
    rw [h1]
    exact h2

/-- The loop keeps every present key present, never lowers its completion
time, and keeps its name and namespace. -/
theorem refresh_lookup_mono {u : String → Option jobAnnotation} (jls : List Job) :
    ∀ {m m' : Store}, refresh u m jls = .ok m' → ∀ {k : String} {g : jobGauge},
      m.lookup k = some g →
      ∃ g', m'.lookup k = some g' ∧ g.completionTime ≤ g'.completionTime ∧
        g'.name = g.name ∧ g'.namespace_ = g.namespace_ := by
  induction jls with
  | nil =>
    intro m m' h k g hk
    unfold refresh at h
    cases (Except.ok.inj h)
    exact ⟨g, hk, le_refl _, rfl, rfl⟩
  | cons j rest ih =>
    intro m m' h k g hk
    obtain ⟨m1, h1, h2⟩ := refresh_cons_ok.mp h
    obtain ⟨g1, hg1, hle1, hn1, hs1⟩ := collectJobs_lookup_mono h1 hk
    obtain ⟨g2, hg2, hle2, hn2, hs2⟩ := ih h2 hg1
    exact ⟨g2, hg2, le_trans hle1 hle2, hn2.trans hn1, hs2.trans hs1⟩

/-! ## C2 -/

/-- C2: a key present in the store is still present after `collectJobs` has
processed a snapshot, with a completion time at least the one it had; the same
holds after the loop has processed any sequence of snapshots. -/
theorem completionTime_never_decreases (u : String → Option jobAnnotation) (jobMap : Store)
    (k : String) (g : jobGauge) (hk : jobMap.lookup k = some g) :
    (∀ (j : Job) (jobMap' : Store), collectJobs u jobMap j = .ok jobMap' →
      ∃ g', jobMap'.lookup k = some g' ∧ g.completionTime ≤ g'.completionTime) ∧
    (∀ (jls : List Job) (jobMap' : Store), refresh u jobMap jls = .ok jobMap' →
      ∃ g', jobMap'.lookup k = some g' ∧ g.completionTime ≤ g'.completionTime) := by
  constructor
  · intro j jobMap' h
    obtain ⟨g', h1, h2, _⟩ := collectJobs_lookup_mono h hk
    exact ⟨g', h1, h2⟩
  · intro jls jobMap' h
    obtain ⟨g', h1, h2, _⟩ := refresh_lookup_mono jls h hk
    exact ⟨g', h1, h2⟩

/-- C2 at a store holding completion 100: an observation completed at 50 and one
completed at 200 both leave a completion time of at least 100. -/
theorem completionTime_never_decreases_witness :
    (∃ g', (sampleStore 0 10 100).lookup "job1a" = some g' ∧ (100 : Int) ≤ g'.completionTime) ∧
    (∃ g', (Finmap.insert "job1a" (sampleGauge 1 60 200) (sampleStore 0 10 100)).lookup "job1a"
        = some g' ∧ (100 : Int) ≤ g'.completionTime) :=
  ⟨(completionTime_never_decreases unmarshalSample (sampleStore 0 10 100) "job1a"
      (sampleGauge 0 10 100) (by rfl)).1 (sampleJob 1 5 50) _ (by rfl),
   (completionTime_never_decreases unmarshalSample (sampleStore 0 10 100) "job1a"
      (sampleGauge 0 10 100) (by rfl)).2 [sampleJob 1 5 50, sampleJob 1 60 200] _ (by rfl)⟩

/-- A call that returns can be repeated on its result without effect. -/
theorem collectJobs_again {u : String → Option jobAnnotation} {m m' : Store} {j : Job}
    (h : collectJobs u m j = .ok m') : collectJobs u m' j = .ok m' := by
  rcases collectJobs_ok_cases h with
    ⟨rfl, _⟩ | ⟨rfl, _⟩ | ⟨l, c, st, g', hl, hc, hs, hk, rfl, hct, hst, hstart, _, _⟩
  · exact h
  · exact h
  · rw [collectJobs_update u _ j l c st g' hl hc hs hk (Finmap.lookup_insert _) (le_of_eq hct),
      Finmap.insert_insert]
    have hg : ({ name := g'.name, status := findStatus j, startTime := st,
                 completionTime := c, namespace_ := g'.namespace_ } : jobGauge) = g' := by
      cases g'
      simp only [jobGauge.mk.injEq, true_and, and_true]
      exact ⟨hst.symm, hstart.symm, hct.symm⟩
    rw [hg]

/-! ## C4 -/

/-- C4: running `collectJobs` on the same snapshot twice in a row ends exactly
as running it once: the same store when the first call returns, the same abort
when it does not. -/
theorem collectJobs_idempotent (u : String → Option jobAnnotation) (jobMap : Store) (j : Job) :
    (collectJobs u jobMap j >>= fun jobMap' => collectJobs u jobMap' j)
      = collectJobs u jobMap j := by
  cases h : collectJobs u jobMap j with
  | error e => rfl
  | ok m' =>
    show collectJobs u m' j = .ok m'
    exact collectJobs_again h

/-! ## C6 -/

/-- The insert branch when it returns: for a snapshot with annotations, a
completion time `c` of any value, a start time `st`, a non-empty key absent
from the store and a created-by payload decoding to `a`, `collectJobs` returns a store that holds under that key the
record (name `a.Reference.Name`, status `findStatus j`, start `st`, completion
`c`, namespace `j.Namespace`) and agrees with the old store on every other key. -/
theorem collectJobs_inserts_absent_key (u : String → Option jobAnnotation) (jobMap : Store)
    (j : Job) (l : List (String × String)) (c st : Int) ( a : jobAnnotation)
    (hl : j.Annotations = some l) (hc : j.Status.CompletionTime = some c)
    (hs : j.Status.StartTime = some st) (hk : findMapKey j ≠ "")
    (habs : jobMap.lookup (findMapKey j) = none)
    (ha : u (index j.Annotations "kubernetes.io/created-by") = some a) :
    ∃ jobMap', collectJobs u jobMap j = .ok jobMap' ∧
      jobMap'.lookup (findMapKey j) = some
        { name := a.Reference.Name, status := findStatus j, startTime := st,
          completionTime := c, namespace_ := j.Namespace } ∧
      ∀ k, k ≠ findMapKey j → jobMap'.lookup k = jobMap.lookup k :=
  ⟨_, collectJobs_insert u jobMap j l c st a hl hc hs hk habs ha, Finmap.lookup_insert _,
    fun _ hne => Finmap.lookup_insert_of_ne _ hne⟩

/-- The insert branch on an empty store and a job completed at the negative
time -7. -/
theorem collectJobs_inserts_absent_key_witness :
    ∃ jobMap', collectJobs unmarshalSample ∅ (sampleJob 1 (-9) (-7)) = .ok jobMap' ∧
      jobMap'.lookup (findMapKey (sampleJob 1 (-9) (-7))) = some
        { name := "job1", status := findStatus (sampleJob 1 (-9) (-7)), startTime := -9,
          completionTime := -7, namespace_ := "a" } ∧
      ∀ k, k ≠ findMapKey (sampleJob 1 (-9) (-7)) →
        jobMap'.lookup k = (∅ : Store).lookup k :=
  collectJobs_inserts_absent_key unmarshalSample ∅ (sampleJob 1 (-9) (-7)) _ (-7) (-9)
    { Kind := "", APIVersion := "",
      Reference := { Kind := "", Namespace := "", Name := "job1", UID := "",
                     APIVersion := "", ResourceVersion := "" } }
    rfl rfl rfl (by decide) (by rfl) (by rfl)

/-- C6 fails on the code: `jobWithoutStartTime` has annotations, a completion
time and the key `job1a`, which `storeA` does not hold, yet no record is
inserted: the insert branch dereferences the nil `StartTime` and the call
panics. `jobWithoutCreatedBy`, with the same absent key, ends in `glog.Fatalf`. -/
theorem collectJobs_absent_key_aborts :
    jobWithoutStartTime.Annotations ≠ none ∧
    jobWithoutStartTime.Status.CompletionTime = some 200 ∧
    findMapKey jobWithoutStartTime = "job1a" ∧
    Finmap.lookup "job1a" storeA = none ∧
    collectJobs unmarshalSample storeA jobWithoutStartTime = .error .nilDereference ∧
    jobWithoutCreatedBy.Annotations ≠ none ∧
    jobWithoutCreatedBy.Status.CompletionTime = some 10 ∧
    findMapKey jobWithoutCreatedBy = "job1a" ∧
    collectJobs unmarshalSample storeA jobWithoutCreatedBy = .error .fatal := by
  refine ⟨by decide, by decide, by decide, by decide, by rfl, by decide, by decide,
    by decide, by rfl⟩

/-! ## C7 -/

/-- The branches for a present key: for a snapshot with annotations, a
completion time `c` and a non-empty key under which the store holds `g`: when `g.completionTime ≤ c` (and the
snapshot has a start time `st`) the record becomes `g` with status, start time
and completion time replaced by those of the snapshot, name and namespace kept,
all other keys untouched; when `c < g.completionTime` the store is returned
unchanged. -/
theorem collectJobs_present_key (u : String → Option jobAnnotation) (jobMap : Store)
    (j : Job) (l : List (String × String)) (c : Int) (g : jobGauge)
    (hl : j.Annotations = some l) (hc : j.Status.CompletionTime = some c)
    (hk : findMapKey j ≠ "") (hg : jobMap.lookup (findMapKey j) = some g) :
    (∀ st, j.Status.StartTime = some st → g.completionTime ≤ c →
      ∃ jobMap', collectJobs u jobMap j = .ok jobMap' ∧
        jobMap'.lookup (findMapKey j) = some
          { name := g.name, status := findStatus j, startTime := st,
            completionTime := c, namespace_ := g.namespace_ } ∧
        ∀ k, k ≠ findMapKey j → jobMap'.lookup k = jobMap.lookup k) ∧
    (¬ g.completionTime ≤ c → collectJobs u jobMap j = .ok jobMap) :=
  ⟨fun st hs hle => ⟨_, collectJobs_update u jobMap j l c st g hl hc hs hk hg hle,
      Finmap.lookup_insert _, fun _ hne => Finmap.lookup_insert_of_ne _ hne⟩,
   fun hlt => collectJobs_stale u jobMap j l c g hl hc hg (not_le.mp hlt)⟩

/-- The spec's example: a stored Succeeded record completed at 100 is retained
when a Failed observation completed at 50 arrives. -/
theorem collectJobs_present_key_witness :
    collectJobs unmarshalSample (sampleStore 0 10 100) (sampleJob 1 5 50)
      = .ok (sampleStore 0 10 100) :=
  (collectJobs_present_key unmarshalSample (sampleStore 0 10 100) (sampleJob 1 5 50) _ 50
    (sampleGauge 0 10 100) rfl rfl (by decide) (by rfl)).2 (by decide)

/-- C7 fails on the code: `jobWithoutStartTime` has annotations, the completion
time 200 and the key `job1a`, under which the store holds a record completed at
200 (and, in the second store, at 100). The stored completion time is `<=` the
snapshot's, yet the record is not updated: the update branch dereferences the
nil `StartTime` and the call panics. Against a record completed at 300 the
same snapshot is stale and the store is returned unchanged. -/
theorem collectJobs_present_key_aborts :
    jobWithoutStartTime.Annotations ≠ none ∧
    jobWithoutStartTime.Status.CompletionTime = some 200 ∧
    findMapKey jobWithoutStartTime = "job1a" ∧
    Finmap.lookup "job1a" (sampleStore 1 7 200) = some (sampleGauge 1 7 200) ∧
    collectJobs unmarshalSample (sampleStore 1 7 200) jobWithoutStartTime
      = .error .nilDereference ∧
    Finmap.lookup "job1a" (sampleStore 1 7 100) = some (sampleGauge 1 7 100) ∧
    collectJobs unmarshalSample (sampleStore 1 7 100) jobWithoutStartTime
      = .error .nilDereference ∧
    collectJobs unmarshalSample (sampleStore 1 7 300) jobWithoutStartTime
      = .ok (sampleStore 1 7 300) := by
  refine ⟨by decide, by decide, by decide, by decide, by rfl, by decide, by rfl, by rfl⟩

/-! ## C8 -/

/-- C8, as stated, fails: a finished job whose annotation map is allocated but
holds no annotation is not skipped. Its key is its namespace `a`, and the
record stored under `a` is overwritten. -/
theorem collectJobs_empty_annotations_not_skipped :
    emptyAnnotationsJob.Annotations = some [] ∧
    collectJobs unmarshalSample storeA emptyAnnotationsJob
      = .ok (Finmap.insert "a"
          { name := "job1", status := 1, startTime := 50, completionTime := 100,
            namespace_ := "a" } storeA) ∧
    collectJobs unmarshalSample storeA emptyAnnotationsJob ≠ .ok storeA := by
  refine ⟨rfl, by rfl, ?_⟩
  intro h
  have h2 : (Finmap.insert "a"
      ({ name := "job1", status := 1, startTime := 50, completionTime := 100,
         namespace_ := "a" } : jobGauge) storeA) = storeA :=
    Except.ok.inj ((show collectJobs unmarshalSample storeA emptyAnnotationsJob = .ok _ by rfl).symm.trans h)
  have h3 := congrArg (Finmap.lookup "a") h2
  rw [Finmap.lookup_insert] at h3
  have h4 : Finmap.lookup "a" storeA = some
      { name := "job1", status := 0, startTime := 5, completionTime := 10,
        namespace_ := "a" } := Finmap.lookup_insert _
  rw [h4] at h3
  exact absurd h3 (by decide)

/-- C8, amended: a snapshot whose annotation map is nil, or that has no
completion time, leaves the store unchanged. -/
theorem collectJobs_filter (u : String → Option jobAnnotation) (jobMap : Store) (j : Job)
    (h : j.Annotations = none ∨ j.Status.CompletionTime = none) :
    collectJobs u jobMap j = .ok jobMap :=
  collectJobs_skip u jobMap j (h.elim Or.inl (fun h => Or.inr (Or.inl h)))

/-- C8, amended, on the spec's example: a running job (one active pod, no
completion time) leaves an empty store empty. -/
theorem collectJobs_filter_witness :
    collectJobs unmarshalSample ∅ runningJob = .ok ∅ :=
  collectJobs_filter unmarshalSample ∅ runningJob (Or.inr rfl)

/-! ## Keys -/

/-- A concatenation is empty only when both parts are. -/
theorem append_eq_empty_iff (s t : String) : s ++ t = "" ↔ s = "" ∧ t = "" := by
  simp only [String.ext_iff, String.data_append]
  exact List.append_eq_nil

/-- Two concatenations whose second parts have the same length are equal only
when both parts are. -/
theorem append_inj_right {s₁ t₁ s₂ t₂ : String} (h : s₁ ++ t₁ = s₂ ++ t₂)
    (hlen : t₁.length = t₂.length) : s₁ = s₂ ∧ t₁ = t₂ := by
  rw [String.ext_iff, String.data_append, String.data_append] at h
  obtain ⟨h1, h2⟩ := List.append_inj' h hlen
  exact ⟨String.ext h1, String.ext h2⟩

/-- Two concatenations whose first parts have the same length are equal only
when both parts are. -/
theorem append_inj_left {s₁ t₁ s₂ t₂ : String} (h : s₁ ++ t₁ = s₂ ++ t₂)
    (hlen : s₁.length = s₂.length) : s₁ = s₂ ∧ t₁ = t₂ := by
  rw [String.ext_iff, String.data_append, String.data_append] at h
  obtain ⟨h1, h2⟩ := List.append_inj h hlen
  exact ⟨String.ext h1, String.ext h2⟩

/-- The key of a job that has an annotation map. -/
theorem findMapKey_some {job : Job} {l : List (String × String)} (hl : job.Annotations = some l) :
    findMapKey job = index job.Annotations "name" ++ job.Namespace := by
  unfold findMapKey
  rw [hl]

/-! ## C9 -/

/-- C9, as stated, fails: `noIdentityJob` has neither a `name` nor a created-by
annotation, yet `findMapKey` gives it the key `a` (its namespace), and
`collectJobs` overwrites the record that `ownerOnlyJob` left under `a`. -/
theorem findMapKey_without_identity_annotation :
    index noIdentityJob.Annotations "name" = "" ∧
    index noIdentityJob.Annotations "kubernetes.io/created-by" = "" ∧
    findMapKey noIdentityJob = "a" ∧
    collectJobs unmarshalSample ∅ ownerOnlyJob = .ok storeA ∧
    collectJobs unmarshalSample storeA noIdentityJob
      = .ok (Finmap.insert "a"
          { name := "job1", status := 1, startTime := 70, completionTime := 300,
            namespace_ := "a" } storeA) ∧
    Finmap.lookup "a" (Finmap.insert "a"
          ({ name := "job1", status := 1, startTime := 70, completionTime := 300,
             namespace_ := "a" } : jobGauge) storeA) ≠ Finmap.lookup "a" storeA := by
  refine ⟨by decide, by decide, by decide, by rfl, by rfl, ?_⟩
  rw [Finmap.lookup_insert]
  have h4 : Finmap.lookup "a" storeA = some
      { name := "job1", status := 0, startTime := 5, completionTime := 10,
        namespace_ := "a" } := Finmap.lookup_insert _
  rw [h4]
  decide

/-- C9, amended: `findMapKey` yields the empty string exactly when the
annotation map is nil, or the `name` annotation is missing or empty and the
namespace is empty as well; and whenever it yields the empty string,
`collectJobs` returns the store unchanged. -/
theorem findMapKey_empty_iff (job : Job) :
    (findMapKey job = "" ↔
      job.Annotations = none ∨ (index job.Annotations "name" = "" ∧ job.Namespace = "")) ∧
    (findMapKey job = "" →
      ∀ (u : String → Option jobAnnotation) (jobMap : Store),
        collectJobs u jobMap job = .ok jobMap) := by
  refine ⟨?_, fun h u jobMap => collectJobs_skip u jobMap job (Or.inr (Or.inr h))⟩
  cases hl : job.Annotations with
  | none => simp [findMapKey, hl]
  | some l =>
    rw [← hl, findMapKey_some hl, append_eq_empty_iff]
    simp [hl]

/-- C9, amended, at a finished job with an empty `name` annotation and an empty
namespace: no key, and the store is left as it was. -/
theorem findMapKey_empty_iff_witness :
    collectJobs unmarshalSample storeA
      { Name := "j", Namespace := "", Annotations := some [("name", "")],
        Status := { Active := 0, Failed := 0, StartTime := some 1,
                    CompletionTime := some 500 } } = .ok storeA :=
  (findMapKey_empty_iff _).2 (by decide) unmarshalSample storeA

/-! ## C10 -/

/-- C10, as stated, fails: job `job1` of namespace `0a` and job `job10` of
namespace `a` differ in both the `name` annotation and the namespace, and
`findMapKey` gives both the key `job10a`. -/
theorem findMapKey_collision :
    index jobInNamespace0a.Annotations "name" ≠ index job10InNamespaceA.Annotations "name" ∧
    jobInNamespace0a.Namespace ≠ job10InNamespaceA.Namespace ∧
    findMapKey jobInNamespace0a = "job10a" ∧
    findMapKey job10InNamespaceA = "job10a" := by
  decide

/-- C10, amended: two snapshots with annotation maps that differ in the `name`
annotation or in the namespace get different keys, provided their namespaces
have the same length or their `name` annotations have the same length (so in
particular when they share the namespace, or share the `name` annotation). -/
theorem findMapKey_injective_of_length (j₁ j₂ : Job) (l₁ l₂ : List (String × String))
    (h₁ : j₁.Annotations = some l₁) (h₂ : j₂.Annotations = some l₂)
    (hdiff : index j₁.Annotations "name" ≠ index j₂.Annotations "name" ∨
      j₁.Namespace ≠ j₂.Namespace)
    (hlen : j₁.Namespace.length = j₂.Namespace.length ∨
      (index j₁.Annotations "name").length = (index j₂.Annotations "name").length) :
    findMapKey j₁ ≠ findMapKey j₂ := by
  intro h
  rw [findMapKey_some h₁, findMapKey_some h₂] at h
  have hboth : index j₁.Annotations "name" = index j₂.Annotations "name" ∧
      j₁.Namespace = j₂.Namespace := by
    rcases hlen with hlen | hlen
    · exact append_inj_right h hlen
    · exact append_inj_left h hlen
  rcases hdiff with hd | hd
  · exact hd hboth.1
  · exact hd hboth.2

/-- C10, amended, at two jobs of namespace `a` named `job1` and `job10`. -/
theorem findMapKey_injective_of_length_witness :
    findMapKey (sampleJob 0 1 2) ≠ findMapKey job10InNamespaceA :=
  findMapKey_injective_of_length (sampleJob 0 1 2) job10InNamespaceA _ _ rfl rfl
    (Or.inl (by decide)) (Or.inl (by decide))

/-! ## C3 -/

/-- The loop over snapshots of one key, started on a store that holds `g0`
under that key: it returns, the stored completion time bounds `g0` and every
snapshot, and the stored record is `g0` or carries the completion time, status
and start time of one of the snapshots. -/
theorem refresh_same_key (u : String → Option jobAnnotation) (key : String) (hkey : key ≠ "") :
    ∀ (jls : List Job) (m : Store) (g0 : jobGauge), m.lookup key = some g0 →
      (∀ j ∈ jls, (∃ l, j.Annotations = some l) ∧ (∃ c, j.Status.CompletionTime = some c) ∧
        (∃ st, j.Status.StartTime = some st) ∧ findMapKey j = key) →
      ∃ m' g, refresh u m jls = .ok m' ∧ m'.lookup key = some g ∧
        g0.completionTime ≤ g.completionTime ∧
        (∀ j ∈ jls, ∀ c, j.Status.CompletionTime = some c → c ≤ g.completionTime) ∧
        (g = g0 ∨ ∃ j ∈ jls, j.Status.CompletionTime = some g.completionTime ∧
          g.status = findStatus j ∧ j.Status.StartTime = some g.startTime) := by
  intro jls
  induction jls with
  | nil =>
    intro m g0 hg0 _
    exact ⟨m, g0, rfl, hg0, le_refl _, fun j hj => absurd hj (List.not_mem_nil j), Or.inl rfl⟩
  | cons j rest ih =>
    intro m g0 hg0 hall
    obtain ⟨⟨l, hl⟩, ⟨c, hc⟩, ⟨st, hs⟩, hk⟩ := hall j (List.mem_cons_self j rest)
    have hrest : ∀ j' ∈ rest, (∃ l, j'.Annotations = some l) ∧
        (∃ c, j'.Status.CompletionTime = some c) ∧
        (∃ st, j'.Status.StartTime = some st) ∧ findMapKey j' = key :=
      fun j' hj' => hall j' (List.mem_cons_of_mem j hj')
    have hkj : findMapKey j ≠ "" := by rw [hk]; exact hkey
    by_cases hle : g0.completionTime ≤ c
    · have hstep := collectJobs_update u m j l c st g0 hl hc hs hkj (by rw [hk]; exact hg0) hle
      rw [hk] at hstep
      obtain ⟨m', g, hrun, hg, hge, hbound, hwho⟩ := ih _ _ (Finmap.lookup_insert _) hrest
      refine ⟨m', g, refresh_cons_ok.mpr ⟨_, hstep, hrun⟩, hg, le_trans hle hge, ?_, ?_⟩
      · intro j' hj' c' hc'
        rcases List.mem_cons.mp hj' with rfl | hmem
        · rw [hc] at hc'
          cases (Option.some.inj hc')
          exact hge
        · exact hbound j' hmem c' hc'
      · rcases hwho with rfl | ⟨j', hj', h1, h2, h3⟩
        · exact Or.inr ⟨j, List.mem_cons_self j rest, hc, rfl, hs⟩
        · exact Or.inr ⟨j', List.mem_cons_of_mem j hj', h1, h2, h3⟩
    · have hlt : c < g0.completionTime := not_le.mp hle
      have hstep := collectJobs_stale u m j l c g0 hl hc (by rw [hk]; exact hg0) hlt
      obtain ⟨m', g, hrun, hg, hge, hbound, hwho⟩ := ih m g0 hg0 hrest
      refine ⟨m', g, refresh_cons_ok.mpr ⟨_, hstep, hrun⟩, hg, hge, ?_, ?_⟩
      · intro j' hj' c' hc'
        rcases List.mem_cons.mp hj' with rfl | hmem
        · rw [hc] at hc'
          cases (Option.some.inj hc')
          exact le_trans (le_of_lt hlt) hge
        · exact hbound j' hmem c' hc'
      · rcases hwho with rfl | ⟨j', hj', h1, h2, h3⟩
        · exact Or.inl rfl
        · exact Or.inr ⟨j', List.mem_cons_of_mem j hj', h1, h2, h3⟩

/-- The loop over a non-empty list of snapshots of one key, started on a store
without that key. -/
theorem refresh_fresh_key (u : String → Option jobAnnotation) (key : String) (hkey : key ≠ "")
    (jls : List Job) (hne : jls ≠ []) (m : Store) (habs : m.lookup key = none)
    (hall : ∀ j ∈ jls, (∃ l, j.Annotations = some l) ∧
      (∃ c, j.Status.CompletionTime = some c) ∧ (∃ st, j.Status.StartTime = some st) ∧
      findMapKey j = key ∧ ∃ a, u (index j.Annotations "kubernetes.io/created-by") = some a) :
    ∃ m' g, refresh u m jls = .ok m' ∧ m'.lookup key = some g ∧
      (∀ j ∈ jls, ∀ c, j.Status.CompletionTime = some c → c ≤ g.completionTime) ∧
      ∃ j ∈ jls, j.Status.CompletionTime = some g.completionTime ∧
        g.status = findStatus j ∧ j.Status.StartTime = some g.startTime := by
  cases jls with
  | nil => exact absurd rfl hne
  | cons j rest =>
    obtain ⟨⟨l, hl⟩, ⟨c, hc⟩, ⟨st, hs⟩, hk, ⟨a, ha⟩⟩ := hall j (List.mem_cons_self j rest)
    have hkj : findMapKey j ≠ "" := by rw [hk]; exact hkey
    have hstep := collectJobs_insert u m j l c st a hl hc hs hkj (by rw [hk]; exact habs) ha
    rw [hk] at hstep
    obtain ⟨m', g, hrun, hg, hge, hbound, hwho⟩ :=
      refresh_same_key u key hkey rest _ _ (Finmap.lookup_insert _)
        (fun j' hj' =>
          ⟨(hall j' (List.mem_cons_of_mem j hj')).1, (hall j' (List.mem_cons_of_mem j hj')).2.1,
           (hall j' (List.mem_cons_of_mem j hj')).2.2.1,
           (hall j' (List.mem_cons_of_mem j hj')).2.2.2.1⟩)
    refine ⟨m', g, refresh_cons_ok.mpr ⟨_, hstep, hrun⟩, hg, ?_, ?_⟩
    · intro j' hj' c' hc'
      rcases List.mem_cons.mp hj' with rfl | hmem
      · rw [hc] at hc'
        cases (Option.some.inj hc')
        exact hge
      · exact hbound j' hmem c' hc'
    · rcases hwho with rfl | ⟨j', hj', h1, h2, h3⟩
      · exact ⟨j, List.mem_cons_self j rest, hc, rfl, hs⟩
      · exact ⟨j', List.mem_cons_of_mem j hj', h1, h2, h3⟩

/-- The loop stores the latest observation when no call aborts: let `jls` be a
non-empty list of snapshots that all have annotations, a completion time, a
start time, a decodable created-by payload and the same non-empty key, and let
the store not hold that key. Processing the snapshots
one by one in any order `order` returns a store whose record under the key has
as completion time the maximum of the snapshots' completion times, and as
status and start time those of a snapshot that carries that maximum. -/
theorem refresh_stores_latest (u : String → Option jobAnnotation) (jobMap : Store)
    (key : String) (jls order : List Job) (hperm : order.Perm jls) (hne : jls ≠ [])
    (hkey : key ≠ "") (habs : jobMap.lookup key = none)
    (hall : ∀ j ∈ jls, (∃ l, j.Annotations = some l) ∧
      (∃ c, j.Status.CompletionTime = some c) ∧ (∃ st, j.Status.StartTime = some st) ∧
      findMapKey j = key ∧ ∃ a, u (index j.Annotations "kubernetes.io/created-by") = some a) :
    ∃ jobMap' g, refresh u jobMap order = .ok jobMap' ∧ jobMap'.lookup key = some g ∧
      (jls.filterMap (fun j => j.Status.CompletionTime)).maximum
        = (g.completionTime : WithBot Int) ∧
      ∃ j ∈ jls, j.Status.CompletionTime = some g.completionTime ∧
        g.status = findStatus j ∧ j.Status.StartTime = some g.startTime := by
  have hne' : order ≠ [] := fun h => hne (by rw [h] at hperm; exact hperm.nil_eq.symm)
  obtain ⟨m', g, hrun, hg, hbound, j, hj, h1, h2, h3⟩ :=
    refresh_fresh_key u key hkey order hne' jobMap habs
      (fun j hj => hall j (hperm.mem_iff.mp hj))
  refine ⟨m', g, hrun, hg, ?_, j, hperm.mem_iff.mp hj, h1, h2, h3⟩
  rw [List.maximum_eq_coe_iff]
  constructor
  · exact List.mem_filterMap.mpr ⟨j, hperm.mem_iff.mp hj, h1⟩
  · intro c hc
    obtain ⟨j', hj', hc'⟩ := List.mem_filterMap.mp hc
    exact hbound j' (hperm.mem_iff.mpr hj') c hc'

/-- Two observations of `job1a`, the later one (completed at 100, succeeded,
started at 10) processed first. -/
theorem refresh_stores_latest_witness :
    ∃ jobMap' g, refresh unmarshalSample ∅ [sampleJob 0 10 100, sampleJob 1 5 50] = .ok jobMap' ∧
      jobMap'.lookup "job1a" = some g ∧
      ([sampleJob 1 5 50, sampleJob 0 10 100].filterMap
          (fun j => j.Status.CompletionTime)).maximum = (g.completionTime : WithBot Int) ∧
      ∃ j ∈ [sampleJob 1 5 50, sampleJob 0 10 100],
        j.Status.CompletionTime = some g.completionTime ∧
        g.status = findStatus j ∧ j.Status.StartTime = some g.startTime :=
  refresh_stores_latest unmarshalSample ∅ "job1a" [sampleJob 1 5 50, sampleJob 0 10 100]
    [sampleJob 0 10 100, sampleJob 1 5 50] (List.Perm.swap _ _ _) (by simp) (by decide)
    (by rfl)
    (by
      intro j hj
      simp only [List.mem_cons, List.mem_singleton, List.not_mem_nil, or_false] at hj
      rcases hj with rfl | rfl
      · exact ⟨⟨_, rfl⟩, ⟨_, rfl⟩, ⟨_, rfl⟩, by decide, ⟨_, by rfl⟩⟩
      · exact ⟨⟨_, rfl⟩, ⟨_, rfl⟩, ⟨_, rfl⟩, by decide, ⟨_, by rfl⟩⟩)

/-- C3 fails on the code: `jobWithoutStartTime` (completed at 200) and
`sampleJob 0 10 300` both have annotations, a completion time and the key
`job1a`, absent from the empty store. Processed with the job completed at 300
first, the loop stores 300, the maximum; processed in the other order, the
first call takes the insert branch, dereferences the nil `StartTime` and the
loop ends in a panic with nothing stored. -/
theorem refresh_order_dependent :
    jobWithoutStartTime.Annotations ≠ none ∧
    jobWithoutStartTime.Status.CompletionTime = some 200 ∧
    findMapKey jobWithoutStartTime = "job1a" ∧
    (sampleJob 0 10 300).Annotations ≠ none ∧
    (sampleJob 0 10 300).Status.CompletionTime = some 300 ∧
    findMapKey (sampleJob 0 10 300) = "job1a" ∧
    Finmap.lookup "job1a" (∅ : Store) = none ∧
    refresh unmarshalSample ∅ [sampleJob 0 10 300, jobWithoutStartTime]
      = .ok (sampleStore 0 10 300) ∧
    refresh unmarshalSample ∅ [jobWithoutStartTime, sampleJob 0 10 300]
      = .error .nilDereference := by
  refine ⟨by decide, by decide, by decide, by decide, by decide, by decide, by decide,
    by rfl, by rfl⟩

/-! ## C5 -/

/-- Replay lemma. Let the loop take `a` to `final` over `jls`, and let `b` hold,
under every key of `final`, a record with the completion time, name and
namespace that `final` holds. Then the loop over `jls` returns from `b` too,
and on each key its result agrees with `final`, unless neither run touched the
key. -/
theorem refresh_replay (u : String → Option jobAnnotation) (final : Store) :
    ∀ (jls : List Job) (a b : Store), refresh u a jls = .ok final →
      (∀ k x, final.lookup k = some x → ∃ y, b.lookup k = some y ∧
        y.completionTime = x.completionTime ∧ y.name = x.name ∧
        y.namespace_ = x.namespace_) →
      ∃ b', refresh u b jls = .ok b' ∧
        ∀ k, b'.lookup k = final.lookup k ∨
          (b'.lookup k = b.lookup k ∧ a.lookup k = final.lookup k) := by
  intro jls
  induction jls with
  | nil =>
    intro a b ha _
    unfold refresh at ha
    cases (Except.ok.inj ha)
    exact ⟨b, rfl, fun k => Or.inr ⟨rfl, rfl⟩⟩
  | cons e es ih =>
    intro a b ha hb
    obtain ⟨a1, hstep, hrun⟩ := refresh_cons_ok.mp ha
    rcases collectJobs_ok_cases hstep with
      ⟨rfl, hskip⟩ | ⟨rfl, l, c, g, hl, hc, hk, hg, hlt⟩ |
      ⟨l, c, st, g1, hl, hc, hs, hk, rfl, hct, hst, hstart, _, _⟩
    · -- skipped in the first pass, skipped in the second
      obtain ⟨b', hb', hfin⟩ := ih a1 b hrun hb
      exact ⟨b', refresh_cons_ok.mpr ⟨b, collectJobs_skip u b e hskip, hb'⟩, hfin⟩
    · -- stale in the first pass, stale in the second
      obtain ⟨x, hx, hgx, _, _⟩ := refresh_lookup_mono es hrun hg
      obtain ⟨y, hy, hyc, _, _⟩ := hb _ x hx
      have hstale : collectJobs u b e = .ok b :=
        collectJobs_stale u b e l c y hl hc hy (by rw [hyc]; exact lt_of_lt_of_le hlt hgx)
      obtain ⟨b', hb', hfin⟩ := ih a1 b hrun hb
      exact ⟨b', refresh_cons_ok.mpr ⟨b, hstale, hb'⟩, hfin⟩
    · -- accepted in the first pass
      obtain ⟨x, hx, hcx, hxn, hxs⟩ := refresh_lookup_mono es hrun (Finmap.lookup_insert _)
      obtain ⟨y, hy, hyc, hyn, hys⟩ := hb _ x hx
      rw [hct] at hcx
      by_cases hlt : c < x.completionTime
      · -- a later snapshot of the first pass was newer: stale in the second
        have hstale : collectJobs u b e = .ok b :=
          collectJobs_stale u b e l c y hl hc hy (by rw [hyc]; exact hlt)
        obtain ⟨b', hb', hfin⟩ := ih _ b hrun hb
        refine ⟨b', refresh_cons_ok.mpr ⟨b, hstale, hb'⟩, fun k => ?_⟩
        rcases hfin k with h | ⟨h1, h2⟩
        · exact Or.inl h
        · by_cases hkk : k = findMapKey e
          · subst hkk
            rw [Finmap.lookup_insert, hx] at h2
            cases (Option.some.inj h2)
            rw [hct] at hlt
            exact absurd hlt (lt_irrefl _)
          · rw [Finmap.lookup_insert_of_ne _ hkk] at h2
            exact Or.inr ⟨h1, h2⟩
      · -- it carried the final completion time: accepted again, same record
        have hceq : x.completionTime = c := le_antisymm (not_lt.mp hlt) hcx
        have hupd := collectJobs_update u b e l c st y hl hc hs hk hy
          (by rw [hyc, hceq])
        have hrec : ({ name := y.name, status := findStatus e, startTime := st,
                       completionTime := c, namespace_ := y.namespace_ } : jobGauge) = g1 := by
          cases g1
          simp only [jobGauge.mk.injEq]
          exact ⟨hyn.trans hxn, hst.symm, hstart.symm, hct.symm, hys.trans hxs⟩
        rw [hrec] at hupd
        have hb1 : ∀ k x', final.lookup k = some x' →
            ∃ y', (Finmap.insert (findMapKey e) g1 b).lookup k = some y' ∧
              y'.completionTime = x'.completionTime ∧ y'.name = x'.name ∧
              y'.namespace_ = x'.namespace_ := by
          intro k x' hx'
          by_cases hkk : k = findMapKey e
          · subst hkk
            rw [hx] at hx'
            cases (Option.some.inj hx')
            exact ⟨g1, Finmap.lookup_insert _, hct.trans hceq.symm, hxn.symm, hxs.symm⟩
          · rw [Finmap.lookup_insert_of_ne _ hkk]
            exact hb k x' hx'
        obtain ⟨b', hb', hfin⟩ := ih _ _ hrun hb1
        refine ⟨b', refresh_cons_ok.mpr ⟨_, hupd, hb'⟩, fun k => ?_⟩
        rcases hfin k with h | ⟨h1, h2⟩
        · exact Or.inl h
        · by_cases hkk : k = findMapKey e
          · subst hkk
            rw [Finmap.lookup_insert] at h1 h2
            exact Or.inl (h1.trans h2)
          · rw [Finmap.lookup_insert_of_ne _ hkk] at h1 h2
            exact Or.inr ⟨h1, h2⟩

/-- C5: when the refresh loop of `Collect` has taken the store `jobMap` to
`jobMap'` over a list of snapshots, running the loop over the same list again
returns, and returns `jobMap'`. -/
theorem refresh_redelivery (u : String → Option jobAnnotation) (jobMap jobMap' : Store)
    (jls : List Job) (h : refresh u jobMap jls = .ok jobMap') :
    refresh u jobMap' jls = .ok jobMap' := by
  obtain ⟨b', hb', hfin⟩ := refresh_replay u jobMap' jls jobMap jobMap' h
    (fun k x hx => ⟨x, hx, rfl, rfl, rfl⟩)
  rw [hb']
  congr 1
  apply Finmap.ext_lookup
  intro k
  rcases hfin k with h1 | ⟨h1, _⟩
  · exact h1
  · exact h1

/-- C5 on a stream with three observations of one key: two carry the same
completion time 100 with different outcomes, one is older. -/
theorem refresh_redelivery_witness :
    refresh unmarshalSample (sampleStore 1 20 100)
      [sampleJob 0 10 100, sampleJob 1 5 50, sampleJob 1 20 100]
      = .ok (sampleStore 1 20 100) :=
  refresh_redelivery unmarshalSample ∅ (sampleStore 1 20 100)
    [sampleJob 0 10 100, sampleJob 1 5 50, sampleJob 1 20 100] (by rfl)

/-! ## C11 -/

/-- C11, as stated, fails: two jobs of namespace `a` whose created-by payload
decodes to the same owner name `job1` get the keys `xa` and `ya` from their
`name` annotations, and the loop stores them as two records. -/
theorem findMapKey_ignores_owner :
    (ownedJob "x").Namespace = (ownedJob "y").Namespace ∧
    (unmarshalSample (index (ownedJob "x").Annotations "kubernetes.io/created-by")).map
        (fun a => a.Reference.Name) = some "job1" ∧
    (unmarshalSample (index (ownedJob "y").Annotations "kubernetes.io/created-by")).map
        (fun a => a.Reference.Name) = some "job1" ∧
    findMapKey (ownedJob "x") = "xa" ∧ findMapKey (ownedJob "y") = "ya" ∧
    refresh unmarshalSample ∅ [ownedJob "x", ownedJob "y"]
      = .ok (Finmap.insert "ya" (sampleGauge 0 5 10) (Finmap.insert "xa" (sampleGauge 0 5 10) ∅)) := by
  refine ⟨rfl, by decide, by decide, by decide, by decide, by rfl⟩

/-- C11, amended: two snapshots that have annotation maps, the same namespace
and the same value of the `name` annotation get the same key, whatever their
created-by annotations are. -/
theorem findMapKey_eq_of_name (j₁ j₂ : Job) (l₁ l₂ : List (String × String))
    (h₁ : j₁.Annotations = some l₁) (h₂ : j₂.Annotations = some l₂)
    (hns : j₁.Namespace = j₂.Namespace)
    (hname : index j₁.Annotations "name" = index j₂.Annotations "name") :
    findMapKey j₁ = findMapKey j₂ := by
  rw [findMapKey_some h₁, findMapKey_some h₂, hns, hname]

/-- C11, amended, at two jobs named `job1` in namespace `a`, one with and one
without a created-by annotation. -/
theorem findMapKey_eq_of_name_witness :
    findMapKey (sampleJob 0 1 2) = findMapKey jobWithoutCreatedBy :=
  findMapKey_eq_of_name (sampleJob 0 1 2) jobWithoutCreatedBy _ _ rfl rfl rfl (by decide)

/-! ## C12 -/

/-- C12, as stated, fails. `noIdentityJob` has neither a `name` nor a
created-by annotation. Processed after `ownerOnlyJob` it overwrites the record
under `a`, so the batch with it removed ends in another store; processed on an
empty store it ends the loop before `sampleJob` is reached. -/
theorem refresh_not_isolated :
    refresh unmarshalSample ∅ [ownerOnlyJob, noIdentityJob]
      = .ok (Finmap.insert "a"
          { name := "job1", status := 1, startTime := 70, completionTime := 300,
            namespace_ := "a" } ∅) ∧
    refresh unmarshalSample ∅ [ownerOnlyJob] = .ok storeA ∧
    (Finmap.insert "a"
          ({ name := "job1", status := 1, startTime := 70, completionTime := 300,
             namespace_ := "a" } : jobGauge) ∅) ≠ storeA ∧
    refresh unmarshalSample ∅ [noIdentityJob, sampleJob 0 10 100] = .error .fatal ∧
    refresh unmarshalSample ∅ [sampleJob 0 10 100] = .ok (sampleStore 0 10 100) := by
  refine ⟨by rfl, by rfl, by decide, by rfl, by rfl⟩

/-- C12, amended: the loop over a batch ends exactly as the loop over the batch
from which every snapshot with a nil annotation map, without completion time or
with an empty key has been removed. -/
theorem refresh_filter_skipped (u : String → Option jobAnnotation) (jls : List Job) :
    ∀ jobMap : Store,
      refresh u jobMap jls
        = refresh u jobMap (jls.filter fun j =>
            decide (¬ (j.Annotations = none ∨ j.Status.CompletionTime = none ∨
              findMapKey j = ""))) := by
  induction jls with
  | nil => intro jobMap; rfl
  | cons j rest ih =>
    intro jobMap
    by_cases hskip : j.Annotations = none ∨ j.Status.CompletionTime = none ∨ findMapKey j = ""
    · rw [List.filter_cons_of_neg (by rw [decide_eq_true_eq]; exact not_not.mpr hskip)]
      rw [← ih jobMap]
      conv_lhs => unfold refresh
      rw [collectJobs_skip u jobMap j hskip]
    · simp only [List.filter_cons, decide_eq_true_eq, hskip, not_false_eq_true, if_true]
      conv_lhs => unfold refresh
      conv_rhs => unfold refresh
      cases collectJobs u jobMap j with
      | error e => rfl
      | ok m' => exact ih m'

/-! ## C13 -/

/-- C13 fails on the code: a finished job that has a `name` annotation and no
created-by annotation reaches `decodeJSON` with the empty payload, which
`json.Unmarshal` rejects, and `glog.Fatalf` ends the process. -/
theorem collectJobs_fatal_without_created_by :
    index jobWithoutCreatedBy.Annotations "kubernetes.io/created-by" = "" ∧
    decodeJSON unmarshalSample "" = .error .fatal ∧
    collectJobs unmarshalSample ∅ jobWithoutCreatedBy = .error .fatal := by
  refine ⟨by decide, by rfl, by rfl⟩

/-! ## C14 -/

/-- C14: when `List` fails, `Collect` returns normally with the store it was
given and no metric sent; so does the `Collect` of `src/job.go`. -/
theorem Collect_list_failure (u : String → Option jobAnnotation)
    (range : Store → List (Sigma fun _ : String => jobGauge)) (jobMap : Store) (err : String) :
    Collect u range jobMap (.error err) = .ok (jobMap, []) ∧
    Direct.Collect (.error err) = ([], none) :=
  ⟨rfl, rfl⟩

/-! ## C15 -/

/-- The render loop returns the map it was given and appends, entry by entry
in the order of enumeration, the three gauges of the entry. -/
theorem render_eq (jobMap : Store) (order : List (Sigma fun _ : String => jobGauge)) :
    ∀ ch : List Metric, render jobMap order ch = (jobMap, ch ++ order.flatMap fun e =>
      [{ desc := descJobStatus, value := e.2.status,
         labelValues := [e.2.namespace_, e.2.name] },
       { desc := descJobStartTime, value := e.2.startTime,
         labelValues := [e.2.namespace_, e.2.name] },
       { desc := descJobCompletionTime, value := e.2.completionTime,
         labelValues := [e.2.namespace_, e.2.name] }]) := by
  induction order with
  | nil => intro ch; simp [render]
  | cons e rest ih =>
    intro ch
    have h := ih (addGauge
      (addGauge (addGauge ch descJobStatus e.2.status e.2 [])
        descJobStartTime e.2.startTime e.2 [])
      descJobCompletionTime e.2.completionTime e.2 [])
    unfold render at h ⊢
    rw [List.foldl_cons, h]
    simp [addGauge, List.append_assoc]

/-- C15: whatever the order in which the entries of the store are enumerated,
the render loop of `Collect` sends, for each stored record, a `kube_job_status`
gauge with the record's status, a `kube_job_start_time` gauge with its start
time and a `kube_job_completion_time` gauge with its completion time, each
labelled (namespace, name) of the record, and nothing else: three times the
number of records in all. -/
theorem render_three_per_record (jobMap : Store)
    (order : List (Sigma fun _ : String => jobGauge))
    (h : (↑order : Multiset (Sigma fun _ : String => jobGauge)) = jobMap.entries) :
    ((↑(render jobMap order []).2 : Multiset Metric) = jobMap.entries.bind fun e =>
      (↑[({ desc := { fqName := "kube_job_status",
                      help := "The last run status of a job",
                      variableLabels := ["namespace", "name"] },
            value := e.2.status,
            labelValues := [e.2.namespace_, e.2.name] } : Metric),
         { desc := { fqName := "kube_job_start_time",
                     help := "The start time for a job",
                     variableLabels := ["namespace", "name"] },
           value := e.2.startTime,
           labelValues := [e.2.namespace_, e.2.name] },
         { desc := { fqName := "kube_job_completion_time",
                     help := "The completion time for a job",
                     variableLabels := ["namespace", "name"] },
           value := e.2.completionTime,
           labelValues := [e.2.namespace_, e.2.name] }] : Multiset Metric)) ∧
    (render jobMap order []).2.length = 3 * Multiset.card jobMap.entries := by
  rw [render_eq, ← h]
  constructor
  · rw [Multiset.coe_bind]
    simp [descJobStatus, descJobStartTime, descJobCompletionTime]
  · simp [List.length_flatMap, Function.comp_def, mul_comm]

/-- C15 on the store with the two records `job1a` and `a`, enumerated with `a`
first: the six gauges sent, by name, value and labels. -/
theorem render_three_per_record_witness :
    ((↑(render twoRecordStore [entryA, entryJob1a] []).2 : Multiset Metric)
      = twoRecordStore.entries.bind fun e =>
      (↑[({ desc := { fqName := "kube_job_status",
                      help := "The last run status of a job",
                      variableLabels := ["namespace", "name"] },
            value := e.2.status,
            labelValues := [e.2.namespace_, e.2.name] } : Metric),
         { desc := { fqName := "kube_job_start_time",
                     help := "The start time for a job",
                     variableLabels := ["namespace", "name"] },
           value := e.2.startTime,
           labelValues := [e.2.namespace_, e.2.name] },
         { desc := { fqName := "kube_job_completion_time",
                     help := "The completion time for a job",
                     variableLabels := ["namespace", "name"] },
           value := e.2.completionTime,
           labelValues := [e.2.namespace_, e.2.name] }] : Multiset Metric)) ∧
    (render twoRecordStore [entryA, entryJob1a] []).2.length
      = 3 * Multiset.card twoRecordStore.entries ∧
    (render twoRecordStore [entryA, entryJob1a] []).2 =
      [{ desc := { fqName := "kube_job_status", help := "The last run status of a job",
                   variableLabels := ["namespace", "name"] },
         value := 0, labelValues := ["a", "job1"] },
       { desc := { fqName := "kube_job_start_time", help := "The start time for a job",
                   variableLabels := ["namespace", "name"] },
         value := 5, labelValues := ["a", "job1"] },
       { desc := { fqName := "kube_job_completion_time",
                   help := "The completion time for a job",
                   variableLabels := ["namespace", "name"] },
         value := 10, labelValues := ["a", "job1"] },
       { desc := { fqName := "kube_job_status", help := "The last run status of a job",
                   variableLabels := ["namespace", "name"] },
         value := 0, labelValues := ["a", "job1"] },
       { desc := { fqName := "kube_job_start_time", help := "The start time for a job",
                   variableLabels := ["namespace", "name"] },
         value := 10, labelValues := ["a", "job1"] },
       { desc := { fqName := "kube_job_completion_time",
                   help := "The completion time for a job",
                   variableLabels := ["namespace", "name"] },
         value := 100, labelValues := ["a", "job1"] }] :=
  ⟨(render_three_per_record twoRecordStore [entryA, entryJob1a] (by decide)).1,
   (render_three_per_record twoRecordStore [entryA, entryJob1a] (by decide)).2,
   by decide⟩

/-! ## C16 -/

/-- C16, as stated, fails: the store with the records `job1a` and `a` can be
enumerated in two orders, and the two renderings are different sequences. -/
theorem render_order_dependent :
    (↑[entryJob1a, entryA] : Multiset (Sigma fun _ : String => jobGauge))
      = twoRecordStore.entries ∧
    (↑[entryA, entryJob1a] : Multiset (Sigma fun _ : String => jobGauge))
      = twoRecordStore.entries ∧
    (render twoRecordStore [entryJob1a, entryA] []).2
      ≠ (render twoRecordStore [entryA, entryJob1a] []).2 := by
  refine ⟨by decide, by decide, ?_⟩
  rw [render_eq, render_eq]
  decide

/-- C16, amended: the render loop returns the store it was given, and two
renderings of one store, each in some order of enumeration of its entries, send
the same gauges the same number of times (one is a permutation of the other). -/
theorem render_frame_perm (jobMap : Store)
    (order₁ order₂ : List (Sigma fun _ : String => jobGauge))
    (h₁ : (↑order₁ : Multiset (Sigma fun _ : String => jobGauge)) = jobMap.entries)
    (h₂ : (↑order₂ : Multiset (Sigma fun _ : String => jobGauge)) = jobMap.entries) :
    (render jobMap order₁ []).1 = jobMap ∧
    (render (render jobMap order₁ []).1 order₂ []).1 = jobMap ∧
    ((render jobMap order₁ []).2).Perm (render (render jobMap order₁ []).1 order₂ []).2 := by
  have hperm : order₁.Perm order₂ := Multiset.coe_eq_coe.mp (h₁.trans h₂.symm)
  rw [render_eq, render_eq]
  refine ⟨rfl, rfl, ?_⟩
  simpa using hperm.flatMap_right _

/-- C16, amended, on the store with the records `job1a` and `a`, enumerated in
both orders. -/
theorem render_frame_perm_witness :
    (render twoRecordStore [entryJob1a, entryA] []).1 = twoRecordStore ∧
    (render (render twoRecordStore [entryJob1a, entryA] []).1 [entryA, entryJob1a] []).1
      = twoRecordStore ∧
    ((render twoRecordStore [entryJob1a, entryA] []).2).Perm
      (render (render twoRecordStore [entryJob1a, entryA] []).1 [entryA, entryJob1a] []).2 :=
  render_frame_perm twoRecordStore [entryJob1a, entryA] [entryA, entryJob1a]
    (by decide) (by decide)

/-! ## C17 -/

/-- C17, as stated, fails: a Failed observation started at 20 and completed at
100 replaces the stored Succeeded record started at 10 and completed at 100. -/
theorem collectJobs_equal_completion_overwrites :
    collectJobs unmarshalSample (sampleStore 0 10 100) (sampleJob 1 20 100)
      = .ok (sampleStore 1 20 100) ∧
    sampleStore 1 20 100 ≠ sampleStore 0 10 100 := by
  refine ⟨by rfl, by decide⟩

/-- C17, amended: for a snapshot with annotations, a completion time `c` and a
non-empty key under which the store holds `g`: when `c` is older than
`g.completionTime` the store is returned unchanged; when `c` equals it and the
snapshot has a start time, the record is overwritten with the status and start
time of the snapshot. -/
theorem collectJobs_older_or_equal (u : String → Option jobAnnotation) (jobMap : Store)
    (j : Job) (l : List (String × String)) (c : Int) (g : jobGauge)
    (hl : j.Annotations = some l) (hc : j.Status.CompletionTime = some c)
    (hk : findMapKey j ≠ "") (hg : jobMap.lookup (findMapKey j) = some g) :
    (c < g.completionTime → collectJobs u jobMap j = .ok jobMap) ∧
    (∀ st, c = g.completionTime → j.Status.StartTime = some st →
      collectJobs u jobMap j = .ok (jobMap.insert (findMapKey j)
        { name := g.name, status := findStatus j, startTime := st,
          completionTime := g.completionTime, namespace_ := g.namespace_ })) := by
  refine ⟨fun hlt => collectJobs_stale u jobMap j l c g hl hc hg hlt, fun st heq hs => ?_⟩
  rw [collectJobs_update u jobMap j l c st g hl hc hs hk hg (le_of_eq heq.symm), heq]

/-- C17, amended, at a stored record completed at 100 and an observation
completed at 99. -/
theorem collectJobs_older_or_equal_witness :
    collectJobs unmarshalSample (sampleStore 0 10 100) (sampleJob 1 20 99)
      = .ok (sampleStore 0 10 100) :=
  (collectJobs_older_or_equal unmarshalSample (sampleStore 0 10 100) (sampleJob 1 20 99) _ 99
    (sampleGauge 0 10 100) rfl rfl (by decide) (by rfl)).1 (by decide)

/-! ## C18 -/

/-- A call that returns leaves every key other than the snapshot's own as it
was. -/
theorem collectJobs_frame {u : String → Option jobAnnotation} {m m' : Store} {j : Job}
    (h : collectJobs u m j = .ok m') {k : String} (hk : k ≠ findMapKey j) :
    m'.lookup k = m.lookup k := by
  rcases collectJobs_ok_cases h with
    ⟨rfl, _⟩ | ⟨rfl, _⟩ | ⟨l, c, st, g', _, _, _, _, rfl, _, _, _, _, _⟩
  · rfl
  · rfl
  · exact Finmap.lookup_insert_of_ne _ hk

/-- A call that returns on `m` does the same on any store `n` that agrees with
`m` on the snapshot's key: nothing, or the same write. -/
theorem collectJobs_transport {u : String → Option jobAnnotation} {m m' : Store} {j : Job}
    (h : collectJobs u m j = .ok m') (n : Store)
    (hn : n.lookup (findMapKey j) = m.lookup (findMapKey j)) :
    (m' = m ∧ collectJobs u n j = .ok n) ∨
    ∃ g', m' = m.insert (findMapKey j) g' ∧
      collectJobs u n j = .ok (n.insert (findMapKey j) g') := by
  rcases collectJobs_ok_cases h with
    ⟨rfl, hskip⟩ | ⟨rfl, l, c, g, hl, hc, hk, hg, hlt⟩ |
    ⟨l, c, st, g', hl, hc, hs, hk, rfl, hct, hst, hstart, hold, hnew⟩
  · exact Or.inl ⟨rfl, collectJobs_skip u n j hskip⟩
  · exact Or.inl ⟨rfl, collectJobs_stale u n j l c g hl hc (hn.trans hg) hlt⟩
  · refine Or.inr ⟨g', rfl, ?_⟩
    cases hlook : m.lookup (findMapKey j) with
    | none =>
      obtain ⟨a, ha, hname, hns⟩ := hnew hlook
      rw [collectJobs_insert u n j l c st a hl hc hs hk (hn.trans hlook) ha]
      have hrec : ({ name := a.Reference.Name, status := findStatus j, startTime := st,
                     completionTime := c, namespace_ := j.Namespace } : jobGauge) = g' := by
        cases g'
        simp only [jobGauge.mk.injEq]
        exact ⟨hname.symm, hst.symm, hstart.symm, hct.symm, hns.symm⟩
      rw [hrec]
    | some g =>
      obtain ⟨hle, hname, hns⟩ := hold g hlook
      rw [collectJobs_update u n j l c st g hl hc hs hk (hn.trans hlook) hle]
      have hrec : ({ name := g.name, status := findStatus j, startTime := st,
                     completionTime := c, namespace_ := g.namespace_ } : jobGauge) = g' := by
        cases g'
        simp only [jobGauge.mk.injEq]
        exact ⟨hname.symm, hst.symm, hstart.symm, hct.symm, hns.symm⟩
      rw [hrec]

/-- Two calls on snapshots of different keys can be swapped. -/
theorem collectJobs_swap {u : String → Option jobAnnotation} {m m₁ m₁₂ : Store} {j₁ j₂ : Job}
    (hne : findMapKey j₁ ≠ findMapKey j₂)
    (h₁ : collectJobs u m j₁ = .ok m₁) (h₂ : collectJobs u m₁ j₂ = .ok m₁₂) :
    ∃ m₂, collectJobs u m j₂ = .ok m₂ ∧ collectJobs u m₂ j₁ = .ok m₁₂ := by
  have hback : m.lookup (findMapKey j₂) = m₁.lookup (findMapKey j₂) :=
    (collectJobs_frame h₁ (Ne.symm hne)).symm
  rcases collectJobs_transport h₂ m hback with ⟨rfl, hm⟩ | ⟨g₂, rfl, hm⟩
  · exact ⟨m, hm, h₁⟩
  · refine ⟨_, hm, ?_⟩
    rcases collectJobs_transport h₁ (m.insert (findMapKey j₂) g₂)
        (Finmap.lookup_insert_of_ne _ hne) with ⟨rfl, hm'⟩ | ⟨g₁, rfl, hm'⟩
    · exact hm'
    · rw [hm', Finmap.insert_insert_of_ne _ hne]

/-- Sequencing two calls in `Except`. -/
theorem bind_eq_ok {u : String → Option jobAnnotation} {m s : Store} {j₁ j₂ : Job} :
    (collectJobs u m j₁ >>= fun m₁ => collectJobs u m₁ j₂) = .ok s ↔
      ∃ m₁, collectJobs u m j₁ = .ok m₁ ∧ collectJobs u m₁ j₂ = .ok s := by
  cases h : collectJobs u m j₁ with
  | error e =>
    constructor
    · intro h'
      exact absurd h' (by simp [bind, Except.bind])
    · rintro ⟨m₁, h', _⟩
      exact absurd h' (by simp)
  | ok m₁ =>
    constructor
    · intro h'
      exact ⟨m₁, rfl, h'⟩
    · rintro ⟨m₁', h', h''⟩
      cases (Except.ok.inj h')
      exact h''

/-- C18: for two snapshots whose keys differ, processing one and then the other
returns a store exactly when processing them in the other order does, and then
it is the same store; and a call that returns leaves the record of every key
other than the snapshot's own as it was. -/
theorem collectJobs_commute (u : String → Option jobAnnotation) (jobMap : Store)
    (j₁ j₂ : Job) (hne : findMapKey j₁ ≠ findMapKey j₂) :
    (∀ s, (collectJobs u jobMap j₁ >>= fun m₁ => collectJobs u m₁ j₂) = .ok s ↔
          (collectJobs u jobMap j₂ >>= fun m₂ => collectJobs u m₂ j₁) = .ok s) ∧
    (∀ (j : Job) (jobMap' : Store), collectJobs u jobMap j = .ok jobMap' →
      ∀ k, k ≠ findMapKey j → jobMap'.lookup k = jobMap.lookup k) := by
  refine ⟨fun s => ?_, fun j jobMap' h k hk => collectJobs_frame h hk⟩
  rw [bind_eq_ok, bind_eq_ok]
  constructor
  · rintro ⟨m₁, h₁, h₂⟩
    exact collectJobs_swap hne h₁ h₂
  · rintro ⟨m₂, h₂, h₁⟩
    exact collectJobs_swap (Ne.symm hne) h₂ h₁

/-- C18 on an empty store and two finished jobs with the keys `job1a` and `a`. -/
theorem collectJobs_commute_witness :
    (collectJobs unmarshalSample ∅ ownerOnlyJob >>= fun m₂ =>
        collectJobs unmarshalSample m₂ (sampleJob 0 10 100))
      = .ok (Finmap.insert "a"
          { name := "job1", status := 0, startTime := 5, completionTime := 10,
            namespace_ := "a" } (sampleStore 0 10 100)) :=
  ((collectJobs_commute unmarshalSample ∅ (sampleJob 0 10 100) ownerOnlyJob (by decide)).1
    _).mp (by rfl)

/-! ## C19 -/

/-- C19, as stated, fails: for a failed job that is no longer active the
`collectJobs` of `src/job.go` sends the status 0, and `findStatus` returns 1. -/
theorem status_encodings_differ :
    (((Direct.collectJobs [] (sampleJob 1 5 50)).1.filter
        fun s => decide (s.desc = Direct.descJobStatus)).map fun s => s.value) = [0] ∧
    findStatus (sampleJob 1 5 50) = 1 := by
  decide

/-- C19, amended: the `collectJobs` of `src/job.go` sends exactly one
`kube_job_status` gauge per job. For an active job its value is 2, as
`findStatus`; for a job that is not active the two encodings are swapped: a
failed job gets 0 where `findStatus` returns 1, any other job gets 1 where
`findStatus` returns 0. -/
theorem status_encodings_related (j : Job) :
    (0 < j.Status.Active →
      (((Direct.collectJobs [] j).1.filter
        fun s => decide (s.desc = Direct.descJobStatus)).map fun s => s.value) = [2] ∧
      findStatus j = 2) ∧
    (¬ 0 < j.Status.Active → 0 < j.Status.Failed →
      (((Direct.collectJobs [] j).1.filter
        fun s => decide (s.desc = Direct.descJobStatus)).map fun s => s.value) = [0] ∧
      findStatus j = 1) ∧
    (¬ 0 < j.Status.Active → ¬ 0 < j.Status.Failed →
      (((Direct.collectJobs [] j).1.filter
        fun s => decide (s.desc = Direct.descJobStatus)).map fun s => s.value) = [1] ∧
      findStatus j = 0) := by
  have hs : Direct.descJobStartTime ≠ Direct.descJobStatus := by decide
  have hc : Direct.descJobCompletionTime ≠ Direct.descJobStatus := by decide
  refine ⟨fun h => ?_, fun h1 h2 => ?_, fun h1 h2 => ?_⟩
  all_goals
    unfold Direct.collectJobs findStatus
    cases j.Status.StartTime <;> cases j.Status.CompletionTime <;>
      simp [unix, Direct.addGauge, List.filter_cons, hs, hc, *]

/-- C19, amended, at an active job: both encodings give 2. -/
theorem status_encodings_related_witness :
    (((Direct.collectJobs [] runningJob).1.filter
        fun s => decide (s.desc = Direct.descJobStatus)).map fun s => s.value) = [2] ∧
    findStatus runningJob = 2 :=
  (status_encodings_related runningJob).1 (by decide)

/-! ## C20 -/

/-- C20 fails on the code: for a finished job with both annotations and a nil
`StartTime`, `collectJobs` dereferences the nil pointer on the insert path (key
absent) and on the update path (key present with an older completion time). -/
theorem collectJobs_nil_startTime_panics :
    jobWithoutStartTime.Status.StartTime = none ∧
    collectJobs unmarshalSample ∅ jobWithoutStartTime = .error .nilDereference ∧
    collectJobs unmarshalSample (sampleStore 0 10 100) jobWithoutStartTime
      = .error .nilDereference := by
  refine ⟨rfl, by rfl, by rfl⟩

end JobExporter
